import Mathlib

/-!
Formal model of the `control` service-manifest engine
(`src/control/api.py`, `src/control/models.py`), over which the claims
about filter resolution, unit synthesis, executable resolution, variable
substitution and the lifecycle state machine are settled.
-/

set_option linter.unusedVariables false

/-- Key-ordered association lookup, mirroring a Python dict membership test
and item access (`filter in self._services`, `self._services[filter]`). -/
def lookupKV {α : Type} : List (String × α) → String → Option α
  | [], _ => none
  | (k, v) :: rest, s => if k = s then some v else lookupKV rest s

/-- A service as seen by the SystemD backend and the filter resolver:
the `Service` wrapper of api.py with its model fields flattened
(name, config name/path, and the `ServiceModel` fields of models.py). -/
structure SvcView where
  name : String
  configName : String
  configPath : Option String
  args : List String
  cwd : Option String
  env : List (String × String)
  user : Option String
  svcType : Option String
  systemd : Option String
  systemdTimer : Option String
  interval : Option String
  firstInterval : Option String
  randomDelay : Option String
  cron : Option (List String)
  cronIsList : Bool
  maxCpu : Option String
  maxMemory : Option String
  maxTime : Option String
  nofile : Option Int
  syslog : Bool
deriving DecidableEq, Repr

/-- The `Config` object of api.py: name, manifest path, ordered service
map and group map (Python dicts preserve insertion order). -/
structure ConfigG where
  name : String
  path : Option String
  services : List (String × SvcView)
  groups : List (String × List String)
deriving DecidableEq, Repr

/-- The argument of `Config.get_services`: a single name (service name,
group name or the literal "all") or a list of names. -/
inductive GFilter where
  | single (s : String)
  | list (l : List String)
deriving DecidableEq, Repr

/-- Left-to-right concatenation of per-name results, mirroring the
`result += self.get_services(item)` loop of `Config.get_services`
(api.py lines 166-170); `none` (divergence) is absorbing. -/
def gsConcat (f : String → Option (List SvcView)) : List String → Option (List SvcView)
  | [] => some []
  | x :: xs =>
    match f x with
    | none => none
    | some a =>
      match gsConcat f xs with
      | none => none
      | some b => some (a ++ b)

/-- `Config.get_services` of api.py (lines 157-181), with an explicit
recursion-depth fuel: the Python recursion is unguarded, and a group cycle
recurses without bound, which the embedding renders as `none` at every
fuel. For any terminating run a large enough fuel returns `some`. -/
def get_services (cfg : ConfigG) : Nat → GFilter → Option (List SvcView)
  | 0, _ => none
  | fuel + 1, GFilter.list l => gsConcat (fun s => get_services cfg fuel (GFilter.single s)) l
  | fuel + 1, GFilter.single s =>
    if s = "all" then some (cfg.services.map Prod.snd)
    else
      match lookupKV cfg.services s with
      | some svc => some [svc]
      | none =>
        match lookupKV cfg.groups s with
        | some members => gsConcat (fun s => get_services cfg fuel (GFilter.single s)) members
        | none => some []

theorem gsConcat_nil (f : String → Option (List SvcView)) : gsConcat f [] = some [] := rfl

theorem gsConcat_cons (f : String → Option (List SvcView)) (x : String) (xs : List String) :
    gsConcat f (x :: xs) =
      match f x with
      | none => none
      | some a =>
        match gsConcat f xs with
        | none => none
        | some b => some (a ++ b) := rfl

/-- Every element produced for a member of the list appears in the
concatenated result. -/
theorem gsConcat_mem (f : String → Option (List SvcView)) (l : List String) (r : List SvcView)
    (hr : gsConcat f l = some r) (x : String) (hx : x ∈ l) :
    ∃ rx, f x = some rx ∧ ∀ e ∈ rx, e ∈ r := by
  induction l generalizing r with
  | nil => cases hx
  | cons y ys ih =>
    rw [gsConcat_cons] at hr
    cases hy : f y with
    | none => rw [hy] at hr; cases hr
    | some a =>
      rw [hy] at hr
      cases hys : gsConcat f ys with
      | none => rw [hys] at hr; cases hr
      | some b =>
        rw [hys] at hr
        cases hr
        rcases List.mem_cons.mp hx with rfl | hx
        · exact ⟨a, hy, fun e he => List.mem_append_left _ he⟩
        · rcases ih b hys hx with ⟨rx, hrx, hsub⟩
          exact ⟨rx, hrx, fun e he => List.mem_append_right _ (hsub e he)⟩

theorem get_services_list_succ (cfg : ConfigG) (fuel : Nat) (l : List String) :
    get_services cfg (fuel + 1) (GFilter.list l) =
      gsConcat (fun s => get_services cfg fuel (GFilter.single s)) l := rfl

theorem get_services_single_succ (cfg : ConfigG) (fuel : Nat) (s : String) :
    get_services cfg (fuel + 1) (GFilter.single s) =
      (if s = "all" then some (cfg.services.map Prod.snd)
       else
        match lookupKV cfg.services s with
        | some svc => some [svc]
        | none =>
          match lookupKV cfg.groups s with
          | some members => gsConcat (fun s => get_services cfg fuel (GFilter.single s)) members
          | none => some []) := rfl

/-- A service name (other than the reserved selector "all") resolves to
that single service at any positive fuel. -/
theorem get_services_service (cfg : ConfigG) (s : String) (svc : SvcView)
    (hne : s ≠ "all") (hs : lookupKV cfg.services s = some svc) (fuel : Nat) :
    get_services cfg (fuel + 1) (GFilter.single s) = some [svc] := by
  rw [get_services_single_succ, if_neg hne, hs]

/-- Claim C1: `get_services "all"` returns every declared service exactly
once in declaration order; a list selector concatenates the results of its
elements left to right without deduplication, so `[A, group_containing_A]`
returns A twice; and a name matching no service and no group yields an
empty list without error. -/
theorem c1_get_services (cfg : ConfigG) :
    (∀ fuel, get_services cfg (fuel + 1) (GFilter.single "all") =
        some (cfg.services.map Prod.snd))
    ∧ (∀ fuel x xs, get_services cfg (fuel + 1) (GFilter.list (x :: xs)) =
        match get_services cfg fuel (GFilter.single x) with
        | none => none
        | some a =>
          match get_services cfg (fuel + 1) (GFilter.list xs) with
          | none => none
          | some b => some (a ++ b))
    ∧ (∀ fuel A G sA members exp, A ≠ "all" → G ≠ "all" →
        lookupKV cfg.services A = some sA → lookupKV cfg.services G = none →
        lookupKV cfg.groups G = some members → A ∈ members →
        get_services cfg (fuel + 1) (GFilter.list members) = some exp →
        get_services cfg (fuel + 2) (GFilter.list [A, G]) = some (sA :: exp) ∧ sA ∈ exp)
    ∧ (∀ fuel s, s ≠ "all" → lookupKV cfg.services s = none →
        lookupKV cfg.groups s = none →
        get_services cfg (fuel + 1) (GFilter.single s) = some []) := by
  refine ⟨?_, ?_, ?_, ?_⟩
  · intro fuel
    rw [get_services_single_succ, if_pos rfl]
  · intro fuel x xs
    rfl
  · intro fuel A G sA members exp hA hG hsA hsG hgG hmem hexp
    have hGexp : get_services cfg (fuel + 1) (GFilter.single G) = some exp := by
      rw [get_services_single_succ, if_neg hG, hsG, hgG]
      rw [get_services_list_succ] at hexp
      exact hexp
    have hAone : get_services cfg (fuel + 1) (GFilter.single A) = some [sA] :=
      get_services_service cfg A sA hA hsA fuel
    constructor
    · rw [get_services_list_succ, gsConcat_cons, hAone, gsConcat_cons, hGexp, gsConcat_nil]
      simp
    · rw [get_services_list_succ] at hexp
      rcases gsConcat_mem _ members exp hexp A hmem with ⟨rx, hrx, hsub⟩
      cases fuel with
      | zero => simp [get_services] at hrx
      | succ f =>
        rw [get_services_service cfg A sA hA hsA f] at hrx
        cases hrx
        exact hsub sA (List.mem_singleton.mpr rfl)
  · intro fuel s hne h1 h2
    rw [get_services_single_succ, if_neg hne, h1, h2]

/-- A minimal service record used by concrete test configurations. -/
def svc0 (n : String) : SvcView :=
  ⟨n, "c", some "/p/control.yaml", ["/bin/true"], none, [], none, none, none, none,
   none, none, none, none, false, none, none, none, none, false⟩

def w1Cfg : ConfigG :=
  ⟨"c", some "/p/control.yaml", [("a", svc0 "a"), ("b", svc0 "b")], [("g", ["a", "b"])]⟩

theorem c1_witness :
    get_services w1Cfg 3 (GFilter.list ["a", "g"]) = some [svc0 "a", svc0 "a", svc0 "b"]
    ∧ svc0 "a" ∈ [svc0 "a", svc0 "b"] :=
  (c1_get_services w1Cfg).2.2.1 1 "a" "g" (svc0 "a") ["a", "b"] [svc0 "a", svc0 "b"]
    (by decide) (by decide) (by decide) (by decide) (by decide) (by decide) (by decide)

/-- A configuration whose group map contains a self-referencing cycle. -/
def cycleCfg : ConfigG := ⟨"c", some "/p/control.yaml", [], [("g", ["g"])]⟩

/-- A configuration with an acyclic group-of-groups nesting. -/
def nestedCfg : ConfigG :=
  ⟨"c", some "/p/control.yaml", [("a", svc0 "a")], [("g1", ["a"]), ("g2", ["g1"])]⟩

/-- Claim C5: on the self-referencing group `g: [g]` the source recursion
of `Config.get_services` never terminates — the fuel-indexed embedding
returns `none` at every recursion depth, instead of failing with a fatal
configuration error as the claim requires; acyclic nested groups do
resolve recursively (groups of groups). -/
theorem c5_cycle_divergence :
    (∀ fuel, get_services cycleCfg fuel (GFilter.single "g") = none)
    ∧ (∀ fuel, get_services cycleCfg fuel (GFilter.list ["g"]) = none)
    ∧ get_services nestedCfg 3 (GFilter.single "g2") = some [svc0 "a"] := by
  have aux : ∀ fuel, get_services cycleCfg fuel (GFilter.single "g") = none := by
    intro fuel
    induction fuel with
    | zero => rfl
    | succ f ih =>
      rw [get_services_single_succ, if_neg (by decide),
        show lookupKV cycleCfg.services "g" = none from rfl,
        show lookupKV cycleCfg.groups "g" = some ["g"] from rfl]
      show gsConcat (fun s => get_services cycleCfg f (GFilter.single s)) ["g"] = none
      rw [gsConcat_cons, ih]
  refine ⟨aux, ?_, by decide⟩
  intro fuel
  cases fuel with
  | zero => rfl
  | succ f =>
    rw [get_services_list_succ, gsConcat_cons, aux f]

/-- A configuration in which the name "all" is simultaneously a service
name and a group name. -/
def dupAllCfg : ConfigG :=
  ⟨"c", some "/p/control.yaml", [("all", svc0 "all"), ("b", svc0 "b")], [("all", ["b"])]⟩

/-- Claim C10 as stated is false for the name "all": even when a service
and a group are both literally named "all", the reserved selector wins and
every declared service is returned, not the single service of that name. -/
theorem c10_counterexample :
    lookupKV dupAllCfg.services "all" = some (svc0 "all")
    ∧ lookupKV dupAllCfg.groups "all" = some ["b"]
    ∧ get_services dupAllCfg 1 (GFilter.single "all") = some [svc0 "all", svc0 "b"]
    ∧ some [svc0 "all", svc0 "b"] ≠ some [svc0 "all"] := by
  refine ⟨rfl, rfl, rfl, by decide⟩

/-- Claim C10 (amended): for every selector name other than the literal
"all" that is both a service name and a group name, `get_services` returns
the single service of that name; the group of the same name is never
consulted. -/
theorem c10_amended (cfg : ConfigG) (s : String) (svc : SvcView) (members : List String)
    (h1 : s ≠ "all") (h2 : lookupKV cfg.services s = some svc)
    (h3 : lookupKV cfg.groups s = some members) :
    ∀ fuel, get_services cfg (fuel + 1) (GFilter.single s) = some [svc] :=
  fun fuel => get_services_service cfg s svc h1 h2 fuel

/-- A configuration in which the name "x" is both a service and a group
(and the group would even be cyclic if it were ever consulted). -/
def dupXCfg : ConfigG :=
  ⟨"c", some "/p/control.yaml", [("x", svc0 "x")], [("x", ["x"])]⟩

theorem c10_witness : get_services dupXCfg 3 (GFilter.single "x") = some [svc0 "x"] :=
  c10_amended dupXCfg "x" (svc0 "x") ["x"] (by decide) (by decide) (by decide) 2

/-- `str.replace(pat, rep)` on character lists: every non-overlapping
occurrence of `pat` is replaced left to right (a Python `str.replace` with
a non-empty pattern; for the empty pattern the embedding is the
identity). -/
def replaceAll : List Char → List Char → List Char → List Char
  | [], _, s => s
  | _ :: _, _, [] => []
  | p :: ps, rep, c :: rest =>
    if (p :: ps).isPrefixOf (c :: rest) then
      rep ++ replaceAll (p :: ps) rep ((c :: rest).drop (p :: ps).length)
    else
      c :: replaceAll (p :: ps) rep rest
  termination_by _ _ s => s.length
  decreasing_by
    all_goals simp [List.length_drop]
    omega

/-- `str.endswith`. -/
def strEndsWith (s suffix : String) : Bool := suffix.toList.isSuffixOf s.toList

/-- `str.startswith`. -/
def strStartsWith (s pre : String) : Bool := pre.toList.isPrefixOf s.toList

/-- `c in s` for a single character. -/
def strContainsChar (s : String) (c : Char) : Bool := s.toList.contains c

/-- `str.replace` on strings. -/
def strReplace (s pat rep : String) : String :=
  String.mk (replaceAll pat.toList rep.toList s.toList)

/-- Contiguous-substring test on character lists. -/
def subOf : List Char → List Char → Bool
  | needle, [] => needle.isEmpty
  | needle, c :: rest => needle.isPrefixOf (c :: rest) || subOf needle rest

/-- `needle in haystack` for strings. -/
def strContainsSub (hay needle : String) : Bool := subOf needle.toList hay.toList

/-- `" ".join`. -/
def joinSp : List String → String
  | [] => ""
  | [x] => x
  | x :: rest => x ++ " " ++ joinSp rest

/-- Python f-string rendering of an optional string: `None` renders as
the literal "None". -/
def pyOptStr : Option String → String
  | some s => s
  | none => "None"

/-- Python `a or b` for an optional string `a`: `None` and `""` are falsy. -/
def pyOr (a : Option String) (b : String) : String :=
  match a with
  | some s => if s = "" then b else s
  | none => b

/-- Python truthiness of an optional string. -/
def pyTruthy : Option String → Bool
  | some s => s != ""
  | none => false

/-- `os.path.dirname` for POSIX paths: everything up to and including the
final slash, then trailing slashes stripped unless the head is all
slashes. -/
def dirname (s : String) : String :=
  let cs := s.toList
  match cs.reverse.findIdx? (fun c => c = '/') with
  | none => ""
  | some k =>
    let head := cs.take (cs.length - k)
    if head.all (fun c => c = '/') then String.mk head
    else String.mk ((head.reverse.dropWhile (fun c => c = '/')).reverse)

/-- The single-quote character, as a string. -/
def sglq : String := String.mk [Char.ofNat 39]

/-- Characters `shlex.quote` passes through unquoted (ASCII word class). -/
def shSafe (c : Char) : Bool :=
  c.isAlphanum || c = '_' || c = '@' || c = '%' || c = '+' || c = '=' || c = ':' ||
    c = ',' || c = '.' || c = '/' || c = '-'

/-- `shlex.quote`: empty becomes a pair of quotes, safe strings pass
through, everything else is wrapped in single quotes with embedded quotes
escaped. -/
def shQuote (s : String) : String :=
  if s = "" then sglq ++ sglq
  else if s.toList.all shSafe then s
  else sglq ++ strReplace s sglq (sglq ++ "\"" ++ sglq ++ "\"" ++ sglq) ++ sglq

deriving instance DecidableEq for Except

/-- Failures raised by the SystemD backend: a Python exception message or
a `CalledProcessError` exit code. -/
inductive Err where
  | exc (msg : String)
  | proc (code : Nat)
deriving DecidableEq, Repr

/-- `SystemD.unit_path`. -/
def unit_path : String := "/etc/systemd/system/"

/-- The `Environment=KEY=VALUE` lines of a service unit. -/
def envLines (l : List (String × String)) : String :=
  String.join (l.map (fun kv => "Environment=" ++ kv.1 ++ "=" ++ kv.2 ++ "\n"))

/-- A raw passthrough block (`systemd` / `systemd_timer`): appended
verbatim when truthy, with a newline added if missing. -/
def rawBlock : Option String → String
  | some t => if t = "" then "" else t ++ (if strEndsWith t "\n" then "" else "\n")
  | none => ""

/-- `SystemD.service_template` of api.py (lines 262-325). `ver` is the
ambient `systemd --version`; `rp` is the ambient `os.path.realpath`. -/
def service_template (ver : Nat) (rp : String → String) (s : SvcView) : Except Err String :=
  if s.args = [] then .error (.exc "args empty")
  else if s.name = "" then .error (.exc "name empty")
  else if s.configName = "" then .error (.exc "config empty")
  else
    .ok (
      "# created by control.py\n# control.yaml=" ++ pyOptStr s.configPath ++ "\n\n" ++
      "[Unit]\nDescription=" ++ s.configName ++ "-" ++ s.name ++ "\n" ++
      "After=syslog.target network.target\n" ++
      (if 244 < ver then "StartLimitIntervalSec=0\n" else "StartLimitInterval=0\n") ++
      "\n[Service]\nType=simple\n" ++
      (if s.svcType = some "daemon" then "Restart=on-failure\nRestartSec=10\n"
       else "Restart=no\n") ++
      "StandardOutput=journal\nStandardError=journal\n" ++
      (if s.syslog then "SyslogIdentifier=True\n"
       else "SyslogIdentifier=" ++ s.configName ++ "-" ++ s.name ++ "\n") ++
      "User=" ++ pyOr s.user "root" ++ "\n" ++
      "ExecStart=" ++ joinSp (s.args.map shQuote) ++ "\n" ++
      "WorkingDirectory=" ++
        rp (pyOr s.cwd
          (if pyTruthy s.configPath then dirname (pyOptStr s.configPath) else ".")) ++
        "\n" ++
      envLines s.env ++
      (match s.maxCpu with | some v => "CPUQuota=" ++ v ++ "\n" | none => "") ++
      (match s.maxMemory with | some v => "MemoryMax=" ++ v ++ "\n" | none => "") ++
      (match s.maxTime with | some v => "RuntimeMaxSec=" ++ v ++ "\n" | none => "") ++
      (match s.nofile with | some n => "LimitNOFILE=" ++ toString n ++ "\n" | none => "") ++
      rawBlock s.systemd ++
      (if s.svcType = some "daemon" then "\n[Install]\nWantedBy=multi-user.target\n" else ""))

/-- The `OnCalendar=` lines of a timer: each expression is first validated
via `systemd-analyze calendar` (the oracle `cal`); a rejected expression
raises instead of being written. -/
def cronLines (cal : String → Bool) : List String → Except Err String
  | [] => .ok ""
  | c :: rest =>
    if cal c then
      match cronLines cal rest with
      | .error e => .error e
      | .ok t => .ok ("OnCalendar=" ++ c ++ "\n" ++ t)
    else .error (.exc ("systemd-analyze calendar failed: " ++ c))

/-- `SystemD.timer_template` of api.py (lines 327-361): `None` for types
other than periodic/cron, otherwise a timer unit whose scheduling lines
are emitted only when the corresponding fields are set. -/
def timer_template (cal : String → Bool) (s : SvcView) : Except Err (Option String) :=
  if ¬(s.svcType = some "periodic" ∨ s.svcType = some "cron") then .ok none
  else if s.configName = "" then .error (.exc "config empty")
  else
    match (if s.cron.isSome ∧ s.svcType = some "cron" then cronLines cal (s.cron.getD [])
           else .ok "") with
    | .error e => .error e
    | .ok cronPart =>
      .ok (some (
        "# created by control.py\n# control.yaml=" ++ pyOptStr s.configPath ++ "\n\n" ++
        "[Unit]\nDescription=" ++ s.configName ++ "-" ++ s.name ++ "\n\n[Timer]\n" ++
        (if s.interval.isSome ∧ s.svcType = some "periodic" then
          "OnActiveSec=" ++ pyOr s.firstInterval (pyOptStr s.interval) ++ "\n" ++
          "OnUnitActiveSec=" ++ pyOptStr s.interval ++ "\n"
         else "") ++
        cronPart ++
        (match s.randomDelay with | some v => "RandomizedDelaySec=" ++ v ++ "\n" | none => "") ++
        rawBlock s.systemdTimer ++
        "\n[Install]\nWantedBy=timers.target\n"))

/-- The timer unit text produced for a periodic/cron service that has no
scheduling fields: a skeleton with an empty `[Timer]` section. -/
def timerBare (s : SvcView) : String :=
  "# created by control.py\n# control.yaml=" ++ pyOptStr s.configPath ++ "\n\n" ++
  "[Unit]\nDescription=" ++ s.configName ++ "-" ++ s.name ++ "\n\n[Timer]\n" ++
  (match s.randomDelay with | some v => "RandomizedDelaySec=" ++ v ++ "\n" | none => "") ++
  rawBlock s.systemdTimer ++
  "\n[Install]\nWantedBy=timers.target\n"

/-- A periodic service with neither `interval` nor `cron`. -/
def svcC2 : SvcView := { svc0 "s" with svcType := some "periodic" }

/-- Claim C2 as stated is false: for a periodic service with neither
`interval` nor `cron`, `timer_template` does not yield nothing — it
produces a non-empty skeleton timer unit with an empty `[Timer]`
section. -/
theorem c2_counterexample :
    timer_template (fun _ => true) svcC2 =
      Except.ok (some ("# created by control.py\n# control.yaml=/p/control.yaml\n\n" ++
        "[Unit]\nDescription=c-s\n\n[Timer]\n\n[Install]\nWantedBy=timers.target\n"))
    ∧ ("# created by control.py\n# control.yaml=/p/control.yaml\n\n" ++
        "[Unit]\nDescription=c-s\n\n[Timer]\n\n[Install]\nWantedBy=timers.target\n") ≠ "" := by
  constructor
  · decide
  · decide

/-- Claim C2 (amended): for a periodic/cron service with neither
`interval` nor `cron` set, timer synthesis still produces the non-empty
skeleton timer unit (no `OnActiveSec`, `OnUnitActiveSec` or `OnCalendar`
line); timer synthesis yields nothing exactly for the other types. -/
theorem c2_amended (cal : String → Bool) (s : SvcView)
    (ht : s.svcType = some "periodic" ∨ s.svcType = some "cron")
    (hi : s.interval = none) (hc : s.cron = none) (hn : s.configName ≠ "") :
    timer_template cal s = Except.ok (some (timerBare s))
    ∧ timerBare s ≠ ""
    ∧ (∀ s2 : SvcView, ¬(s2.svcType = some "periodic" ∨ s2.svcType = some "cron") →
        timer_template cal s2 = Except.ok none) := by
  refine ⟨?_, ?_, ?_⟩
  · rw [timer_template, if_neg (not_not_intro ht), if_neg hn,
      if_neg (by simp [hc]), if_neg (by simp [hi])]
    simp [timerBare]
  · intro h
    have h2 := congrArg String.length h
    simp only [timerBare, String.length_append] at h2
    have h3 : 0 < ("\n[Install]\nWantedBy=timers.target\n" : String).length := by decide
    rw [show ("" : String).length = 0 from rfl] at h2
    omega
  · intro s2 h2
    rw [timer_template, if_pos h2]

theorem c2_witness :
    timer_template (fun _ => true) svcC2 = Except.ok (some (timerBare svcC2))
    ∧ timerBare svcC2 ≠ ""
    ∧ (∀ s2 : SvcView, ¬(s2.svcType = some "periodic" ∨ s2.svcType = some "cron") →
        timer_template (fun _ => true) s2 = Except.ok none) :=
  c2_amended (fun _ => true) svcC2 (Or.inl rfl) rfl rfl (by decide)


/-- The ambient filesystem and search path consulted by
`ExecutableModel.to_executable_args`: `os.path.isfile`, `os.access(_, X_OK)`,
`os.path.realpath`, and the `which` lookup (`none` = nonzero exit). -/
structure FSx where
  isFile : String → Bool
  accessX : String → Bool
  realpath : String → String
  which : String → Option String

/-- `os.path.join a b` for two POSIX path components: an absolute second
component discards the first. -/
def pathJoin (a b : String) : String :=
  if strStartsWith b "/" then b
  else if a = "" then b
  else if strEndsWith a "/" then a ++ b
  else a ++ "/" ++ b

/-- The `resolve` helper of `to_executable_args`:
`os.path.realpath(os.path.join(cwd, path))`. -/
def fsResolve (fs : FSx) (cwd p : String) : String := fs.realpath (pathJoin cwd p)

/-- The `ExecutableModel` of models.py (exactly one of `cmd`, `run`,
`shell` is set by the validator; the embedding keeps all three fields). -/
structure ExecModel where
  cmd : Option String := none
  args : List String := []
  run : Option String := none
  shell : Option String := none
  env : List (String × String) := []
  cwd : Option String := none
deriving DecidableEq, Repr

/-- Steps 3-5 of `to_executable_args` (models.py lines 60-74): interpreter
auto-detection and `which` lookup, yielding the first argument as finally
resolved (before the existence check) and the remaining arguments. -/
def chainHead (fs : FSx) (cwd : String) (a0 : String) (rest : List String) :
    String × List String :=
  let st1 : String × List String :=
    if !fs.accessX (fsResolve fs cwd a0) && strEndsWith a0 ".js" then ("node", a0 :: rest)
    else (a0, rest)
  let st2 : String × List String :=
    if !fs.accessX (fsResolve fs cwd st1.1) && strEndsWith st1.1 ".py" then
      ("python", st1.1 :: st1.2)
    else st1
  let h3 : String :=
    if !fs.isFile (fsResolve fs cwd st2.1) && !(strContainsChar st2.1 '/') then
      match fs.which st2.1 with
      | some w => w
      | none => st2.1
    else st2.1
  (fsResolve fs cwd h3, st2.2)

/-- Steps 3-6 of `to_executable_args` (models.py lines 60-80): the head
resolution followed by the final regular-file check. -/
def resolveChain (fs : FSx) (cwd : String) (a0 : String) (rest : List String) :
    Except String (List String) :=
  let ht := chainHead fs cwd a0 rest
  if fs.isFile ht.1 then .ok (ht.1 :: ht.2)
  else .error ("Executable does not exist: " ++ ht.1)

/-- `ExecutableModel.to_executable_args` of models.py (lines 36-80).
`sx` is the ambient `shlex.split` used for the `run` form. -/
def to_executable_args (fs : FSx) (sx : String → List String) (m : ExecModel)
    (baseCwd : Option String) : Except String (List String) :=
  let initial : Except String (List String) :=
    if pyTruthy m.run then .ok (sx (pyOptStr m.run))
    else if pyTruthy m.shell then .ok ["/bin/sh", "-c", pyOptStr m.shell]
    else if pyTruthy m.cmd then .ok (pyOptStr m.cmd :: m.args)
    else .error "No executable configuration provided"
  match initial with
  | .error e => .error e
  | .ok [] => .error "IndexError: list index out of range"
  | .ok (a0 :: rest) =>
    let cwd : String :=
      if pyTruthy m.cwd then fs.realpath (pyOptStr m.cwd) else pyOr baseCwd "."
    resolveChain fs cwd a0 rest

/-- The filesystem of the C3 scenario: a working directory `/app`
containing only a non-executable `app.js`, and a `node` binary on the
search path. -/
def fsC3 : FSx :=
  ⟨fun p => p == "/app/app.js" || p == "/usr/bin/node",
   fun p => p == "/usr/bin/node",
   id,
   fun s => if s == "node" then some "/usr/bin/node" else none⟩

/-- Claim C3 as stated is false: for `cmd: "app.js"` the resolved argv is
`["/usr/bin/node", "app.js"]` — the second element is the original token,
not the absolute path `/app/app.js`; only the first argument is
resolved. -/
theorem c3_counterexample :
    to_executable_args fsC3 (fun _ => []) { cmd := some "app.js" } (some "/app") =
      Except.ok ["/usr/bin/node", "app.js"]
    ∧ strStartsWith "app.js" "/" = false
    ∧ ("app.js" : String) ≠ "/app/app.js" := by
  refine ⟨by decide, by decide, by decide⟩

/-- Claim C3 (amended): for `cmd: c` with `c` a non-executable `.js` token
in working directory `d` and `node` findable on the search path, the
resolved argv is `[resolve(which node), c]`: the first element is the
resolved path of the node binary and the second is the original token
unchanged (interpreted at run time relative to the unit's working
directory), not necessarily an absolute path. -/
theorem c3_amended (fs : FSx) (sx : String → List String) (d c w : String)
    (hc : c ≠ "") (hd : d ≠ "") (hjs : strEndsWith c ".js" = true)
    (h1 : fs.accessX (fsResolve fs d c) = false)
    (h2 : fs.isFile (fsResolve fs d "node") = false)
    (h4 : fs.which "node" = some w)
    (h5 : fs.isFile (fsResolve fs d w) = true) :
    to_executable_args fs sx { cmd := some c } (some d) =
      Except.ok [fsResolve fs d w, c] := by
  have e3 : strEndsWith "node" ".py" = false := by decide
  have e4 : strContainsChar "node" '/' = false := by decide
  simp [to_executable_args, resolveChain, chainHead, pyTruthy, pyOptStr, pyOr,
    hc, hd, hjs, h1, h2, h4, h5, e3, e4]

theorem c3_witness :
    to_executable_args fsC3 (fun _ => []) { cmd := some "app.js" } (some "/app") =
      Except.ok [fsResolve fsC3 "/app" "/usr/bin/node", "app.js"] :=
  c3_amended fsC3 (fun _ => []) "/app" "app.js" "/usr/bin/node"
    (by decide) (by decide) (by decide) (by decide) (by decide) (by decide) (by decide)

/-- The filesystem of the C4 scenario: `/x/tool` exists as a regular file
but nothing on the system is executable. -/
def fsC4 : FSx := ⟨fun p => p == "/x/tool", fun _ => false, id, fun _ => none⟩

/-- Claim C4 as stated is false on models.py: an executable declaration
whose resolved first argument exists as a regular file but lacks execute
permission resolves successfully — `to_executable_args` performs no
execute-permission check, so no ExecutableNotExecutable failure occurs. -/
theorem c4_counterexample :
    to_executable_args fsC4 (fun _ => []) { cmd := some "/x/tool" } none =
      Except.ok ["/x/tool"]
    ∧ fsC4.isFile "/x/tool" = true
    ∧ fsC4.accessX "/x/tool" = false := by
  refine ⟨by decide, by decide, by decide⟩

theorem resolveChain_ok_isFile (fs : FSx) (cwd a0 : String) (rest : List String)
    (h : String) (t : List String) :
    resolveChain fs cwd a0 rest = Except.ok (h :: t) → fs.isFile h = true := by
  intro hok
  simp only [resolveChain] at hok
  split at hok
  · simp only [Except.ok.injEq, List.cons.injEq] at hok
    rcases hok with ⟨rfl, -⟩
    assumption
  · exact Except.noConfusion hok

theorem resolveChain_cases (fs : FSx) (cwd a0 : String) (rest : List String) :
    (∃ h t, resolveChain fs cwd a0 rest = Except.ok (h :: t) ∧ fs.isFile h = true) ∨
    (∃ p, resolveChain fs cwd a0 rest = Except.error ("Executable does not exist: " ++ p) ∧
      fs.isFile p = false) := by
  simp only [resolveChain]
  split
  · exact Or.inl ⟨_, _, rfl, by assumption⟩
  · rename_i hneg
    exact Or.inr ⟨_, rfl, by simpa using hneg⟩

/-- Claim C4 (amended): resolution succeeds only when the resolved first
argument is a regular file, and for a `cmd`-form declaration it otherwise
fails with the "Executable does not exist" (ExecutableNotFound) error; an
existing non-executable regular file is accepted — the
ExecutableNotExecutable failure of the superseded control.py iteration
does not exist in models.py. -/
theorem c4_amended (fs : FSx) (sx : String → List String) :
    (∀ (m : ExecModel) (b : Option String) (a0 : String) (rest : List String),
      to_executable_args fs sx m b = Except.ok (a0 :: rest) → fs.isFile a0 = true)
    ∧ (∀ (m : ExecModel) (b : Option String),
      pyTruthy m.run = false → pyTruthy m.shell = false → pyTruthy m.cmd = true →
      (∃ l, to_executable_args fs sx m b = Except.ok l) ∨
      (∃ p, to_executable_args fs sx m b = Except.error ("Executable does not exist: " ++ p) ∧
        fs.isFile p = false)) := by
  constructor
  · intro m b a0 rest hok
    simp only [to_executable_args] at hok
    split at hok
    · exact Except.noConfusion hok
    · exact Except.noConfusion hok
    · exact resolveChain_ok_isFile fs _ _ _ a0 rest hok
  · intro m b hrun hshell hcmd
    simp only [to_executable_args, hrun, hshell, hcmd, Bool.false_eq_true, if_false, if_true]
    rcases resolveChain_cases fs (if pyTruthy m.cwd then fs.realpath (pyOptStr m.cwd)
        else pyOr b ".") (pyOptStr m.cmd) m.args with ⟨h, t, he, hf⟩ | ⟨p, he, hf⟩
    · exact Or.inl ⟨h :: t, he⟩
    · exact Or.inr ⟨p, he, hf⟩

theorem c4_witness :
    (to_executable_args fsC4 (fun _ => []) { cmd := some "/x/tool" } none =
      Except.ok ["/x/tool"] →
      fsC4.isFile "/x/tool" = true)
    ∧ ((∃ l, to_executable_args fsC4 (fun _ => []) { cmd := some "/missing" } none =
          Except.ok l) ∨
       (∃ p, to_executable_args fsC4 (fun _ => []) { cmd := some "/missing" } none =
          Except.error ("Executable does not exist: " ++ p) ∧ fsC4.isFile p = false)) :=
  ⟨(c4_amended fsC4 (fun _ => [])).1 { cmd := some "/x/tool" } none "/x/tool" [],
   (c4_amended fsC4 (fun _ => [])).2 { cmd := some "/missing" } none
     (by decide) (by decide) (by decide)⟩

/-- The ambient Supervisor (systemctl) as observed at one point in time:
the exit code of each invocation (argv, without the sudo prefix of a
non-root caller). -/
structure SupO where
  code : List String → Nat

/-- `{config.name}-{service.name}.service`. -/
def unitSvc (s : SvcView) : String := s.configName ++ "-" ++ s.name ++ ".service"

/-- `{config.name}-{service.name}.timer`. -/
def unitTmr (s : SvcView) : String := s.configName ++ "-" ++ s.name ++ ".timer"

/-- `SystemD.is_started` (api.py 462-470): a `systemctl is-active` query;
exit 0 is running, 3 or 4 is stopped, anything else propagates. Returns
the outcome paired with the issued invocations. -/
def is_started (sup : SupO) (s : SvcView) : Except Nat Bool × List (List String) :=
  let a := ["systemctl", "is-active", unitSvc s]
  (if sup.code a = 0 then .ok true
   else if sup.code a = 3 ∨ sup.code a = 4 then .ok false
   else .error (sup.code a), [a])

/-- `SystemD.stop` (api.py 445-450): a no-op when the service is not
active. -/
def sd_stop (sup : SupO) (s : SvcView) : Except Nat Unit × List (List String) :=
  match is_started sup s with
  | (.error e, log) => (.error e, log)
  | (.ok false, log) => (.ok (), log)
  | (.ok true, log) =>
    let st := ["systemctl", "stop", unitSvc s]
    (if sup.code st = 0 then .ok () else .error (sup.code st), log ++ [st])

/-- `SystemD.start` (api.py 430-443): a no-op when already active;
otherwise start, settle, confirm, falling back to a status report whose
own failure is swallowed. -/
def sd_start (sup : SupO) (s : SvcView) : Except Nat Unit × List (List String) :=
  match is_started sup s with
  | (.error e, log) => (.error e, log)
  | (.ok true, log) => (.ok (), log)
  | (.ok false, log) =>
    let st := ["systemctl", "start", unitSvc s]
    let ia := ["systemctl", "is-active", unitSvc s]
    let sta := ["systemctl", "status", unitSvc s]
    if sup.code st = 0 then
      if sup.code ia = 0 then (.ok (), log ++ [st, ia])
      else (.ok (), log ++ [st, ia, sta])
    else (.ok (), log ++ [st, sta])

/-- Claim C8: when the Supervisor reports a service as not active, `stop`
issues no stop invocation and returns after the state query alone;
symmetrically, `start` on a running service issues no start invocation. -/
theorem c8_stop_start_noop (sup : SupO) (s : SvcView) :
    ((sup.code ["systemctl", "is-active", unitSvc s] = 3 ∨
      sup.code ["systemctl", "is-active", unitSvc s] = 4) →
      sd_stop sup s = (Except.ok (), [["systemctl", "is-active", unitSvc s]])
      ∧ ["systemctl", "stop", unitSvc s] ∉ (sd_stop sup s).2)
    ∧ (sup.code ["systemctl", "is-active", unitSvc s] = 0 →
      sd_start sup s = (Except.ok (), [["systemctl", "is-active", unitSvc s]])
      ∧ ["systemctl", "start", unitSvc s] ∉ (sd_start sup s).2) := by
  constructor
  · intro h
    have hc : sd_stop sup s = (Except.ok (), [["systemctl", "is-active", unitSvc s]]) := by
      rcases h with h | h <;> simp [sd_stop, is_started, h]
    refine ⟨hc, ?_⟩
    rw [hc]
    simp
  · intro h
    have hc : sd_start sup s = (Except.ok (), [["systemctl", "is-active", unitSvc s]]) := by
      simp [sd_start, is_started, h]
    refine ⟨hc, ?_⟩
    rw [hc]
    simp

theorem c8_witness :
    (sd_stop ⟨fun _ => 3⟩ (svc0 "s") =
        (Except.ok (), [["systemctl", "is-active", unitSvc (svc0 "s")]])
      ∧ ["systemctl", "stop", unitSvc (svc0 "s")] ∉ (sd_stop ⟨fun _ => 3⟩ (svc0 "s")).2)
    ∧ (sd_start ⟨fun _ => 0⟩ (svc0 "s") =
        (Except.ok (), [["systemctl", "is-active", unitSvc (svc0 "s")]])
      ∧ ["systemctl", "start", unitSvc (svc0 "s")] ∉ (sd_start ⟨fun _ => 0⟩ (svc0 "s")).2) :=
  ⟨(c8_stop_start_noop ⟨fun _ => 3⟩ (svc0 "s")).1 (Or.inl rfl),
   (c8_stop_start_noop ⟨fun _ => 0⟩ (svc0 "s")).2 rfl⟩

/-- The unit-file directory as a mapping from path to content. -/
abbrev Disk := List (String × String)

/-- Update-or-append of a key in the disk map (the effect of a write). -/
def setKey : Disk → String → String → Disk
  | [], p, c => [(p, c)]
  | (q, v) :: rest, p, c =>
    if q = p then (p, c) :: rest else (q, v) :: setKey rest p c

/-- `SystemD.file_write` (api.py 213-231): read, compare, and write only
when the content differs or the read fails; returns the updated disk and
whether a write happened. -/
def file_write (d : Disk) (p c : String) : Disk × Bool :=
  match lookupKV d p with
  | some cur => if cur = c then (d, false) else (setKey d p c, true)
  | none => (setKey d p c, true)

theorem lookupKV_setKey_self (d : Disk) (p c : String) :
    lookupKV (setKey d p c) p = some c := by
  induction d with
  | nil => simp [setKey, lookupKV]
  | cons kv rest ih =>
    obtain ⟨q, v⟩ := kv
    by_cases h : q = p
    · simp [setKey, h, lookupKV]
    · simp [setKey, h, lookupKV, ih]

theorem lookupKV_setKey_other (d : Disk) (p c q : String) (h : q ≠ p) :
    lookupKV (setKey d p c) q = lookupKV d q := by
  induction d with
  | nil => simp [setKey, lookupKV, Ne.symm h]
  | cons kv rest ih =>
    obtain ⟨k, v⟩ := kv
    by_cases hk : k = p
    · subst hk
      simp [setKey, lookupKV, Ne.symm h]
    · simp only [setKey, hk, if_false, lookupKV]
      by_cases hq : k = q
      · simp [hq]
      · simp [hq, ih]

theorem file_write_lookup (d : Disk) (p c : String) :
    lookupKV (file_write d p c).1 p = some c := by
  unfold file_write
  cases h : lookupKV d p with
  | none => simp [lookupKV_setKey_self]
  | some cur =>
    by_cases hc : cur = c
    · simp [hc, h]
    · simp [hc, lookupKV_setKey_self]

theorem file_write_other (d : Disk) (p c q : String) (h : q ≠ p) :
    lookupKV (file_write d p c).1 q = lookupKV d q := by
  unfold file_write
  cases hl : lookupKV d p with
  | none => simp [lookupKV_setKey_other _ _ _ _ h]
  | some cur =>
    by_cases hc : cur = c
    · simp [hc]
    · simp [hc, lookupKV_setKey_other _ _ _ _ h]

theorem file_write_noop (d : Disk) (p c : String) (h : lookupKV d p = some c) :
    file_write d p c = (d, false) := by
  unfold file_write
  rw [h]
  simp

/-- Appending distinct suffixes to the same prefix yields distinct paths. -/
theorem append_ne_of_suffix_ne (a : String) :
    a ++ ".service" ≠ a ++ ".timer" := by
  intro h
  have h2 := congrArg String.data h
  simp only [String.data_append] at h2
  have h3 := List.append_cancel_left h2
  have : (".service" : String).data ≠ (".timer" : String).data := by decide
  exact this h3

/-- The write section of `SystemD.install` (api.py 363-379): the service
unit is written (via read-compare-write) when its text is truthy, then the
timer unit when one was synthesized; yields the disk and the written
paths. -/
def write_phase (d : Disk) (t1 tplS t2 : String) (tplT : Option String) :
    Disk × List String :=
  let r1 := if tplS ≠ "" then file_write d t1 tplS else (d, false)
  let r2 :=
    match tplT with
    | some t => if t ≠ "" then file_write r1.1 t2 t else (r1.1, false)
    | none => (r1.1, false)
  (r2.1, (if r1.2 then [t1] else []) ++ (if r2.2 then [t2] else []))

/-- Repeating the write phase with the same unit texts writes nothing and
leaves the disk unchanged. -/
theorem write_phase_idem (d : Disk) (t1 tplS t2 : String) (tplT : Option String)
    (hne : t1 ≠ t2) :
    write_phase (write_phase d t1 tplS t2 tplT).1 t1 tplS t2 tplT =
      ((write_phase d t1 tplS t2 tplT).1, []) := by
  by_cases hS : tplS = ""
  · subst hS
    cases tplT with
    | none => simp [write_phase]
    | some t =>
      by_cases hT : t = ""
      · simp [write_phase, hT]
      · simp only [write_phase, ne_eq, not_true_eq_false, if_false, hT,
          not_false_eq_true, if_true]
        simp [file_write_noop _ _ _ (file_write_lookup d t2 t)]
  · cases tplT with
    | none =>
      simp only [write_phase, ne_eq, hS, not_false_eq_true, if_true]
      simp [file_write_noop _ _ _ (file_write_lookup d t1 tplS)]
    | some t =>
      by_cases hT : t = ""
      · simp only [write_phase, ne_eq, hS, not_false_eq_true, if_true, hT,
          not_true_eq_false, if_false]
        simp [file_write_noop _ _ _ (file_write_lookup d t1 tplS)]
      · simp only [write_phase, ne_eq, hS, not_false_eq_true, if_true, hT]
        have k1 : lookupKV (file_write (file_write d t1 tplS).1 t2 t).1 t1 = some tplS := by
          rw [file_write_other _ t2 t t1 hne]
          exact file_write_lookup d t1 tplS
        have k2 : lookupKV (file_write (file_write d t1 tplS).1 t2 t).1 t2 = some t :=
          file_write_lookup _ t2 t
        simp [file_write_noop _ _ _ k1, file_write_noop _ _ _ k2]

/-- `SystemD.is_enabled` (api.py 494-505): daemons query their service
unit, periodic/cron their timer unit, and any other type issues no query
and reports enabled; exit 1 means disabled, other nonzero exits
propagate. -/
def is_enabled (sup : SupO) (s : SvcView) : Except Nat Bool × List (List String) :=
  if s.svcType = some "daemon" then
    let a := ["systemctl", "is-enabled", unitSvc s]
    (if sup.code a = 0 then .ok true
     else if sup.code a = 1 then .ok false
     else .error (sup.code a), [a])
  else if s.svcType = some "periodic" ∨ s.svcType = some "cron" then
    let a := ["systemctl", "is-enabled", unitTmr s]
    (if sup.code a = 0 then .ok true
     else if sup.code a = 1 then .ok false
     else .error (sup.code a), [a])
  else (.ok true, [])

/-- `SystemD.enable` (api.py 472-481): a no-op when already enabled;
daemons enable their service unit, periodic/cron enable and start their
timer unit, other types do nothing. -/
def sd_enable (sup : SupO) (s : SvcView) : Except Nat Unit × List (List String) :=
  match is_enabled sup s with
  | (.error e, log) => (.error e, log)
  | (.ok true, log) => (.ok (), log)
  | (.ok false, log) =>
    if s.svcType = some "daemon" then
      let a := ["systemctl", "enable", unitSvc s]
      (if sup.code a = 0 then .ok () else .error (sup.code a), log ++ [a])
    else if s.svcType = some "periodic" ∨ s.svcType = some "cron" then
      let a := ["systemctl", "enable", unitTmr s]
      let b := ["systemctl", "start", unitTmr s]
      if sup.code a = 0 then
        (if sup.code b = 0 then .ok () else .error (sup.code b), log ++ [a, b])
      else (.error (sup.code a), log ++ [a])
    else (.ok (), log)

/-- `SystemD.install` (api.py 363-382): synthesize both unit texts, write
each via read-compare-write when present, `daemon-reload`, then enable.
Returns the disk, the written paths and the issued invocations. -/
def sd_install (ver : Nat) (rp : String → String) (cal : String → Bool) (sup : SupO)
    (d : Disk) (s : SvcView) :
    Except Err (Disk × List String × List (List String)) :=
  match service_template ver rp s with
  | .error e => .error e
  | .ok tplS =>
    match timer_template cal s with
    | .error e => .error e
    | .ok tplT =>
      let t1 := unit_path ++ s.configName ++ "-" ++ s.name ++ ".service"
      let t2 := unit_path ++ s.configName ++ "-" ++ s.name ++ ".timer"
      let wp := write_phase d t1 tplS t2 tplT
      if sup.code ["systemctl", "daemon-reload"] = 0 then
        match sd_enable sup s with
        | (.error c, elog) => .error (.proc c)
        | (.ok _, elog) =>
          .ok (wp.1, wp.2, ["systemctl", "daemon-reload"] :: elog)
      else .error (.proc (sup.code ["systemctl", "daemon-reload"]))

/-- The two unit paths of a service are distinct. -/
theorem unit_paths_ne (s : SvcView) :
    unit_path ++ s.configName ++ "-" ++ s.name ++ ".service" ≠
      unit_path ++ s.configName ++ "-" ++ s.name ++ ".timer" :=
  append_ne_of_suffix_ne (unit_path ++ s.configName ++ "-" ++ s.name)

/-- Claim C7: a unit file is written only when the synthesized content
differs from the content on disk, and a second `install` of the same
unchanged service performs zero unit-file writes and leaves the disk
unchanged. -/
theorem c7_install_idempotent (ver : Nat) (rp : String → String) (cal : String → Bool)
    (sup : SupO) :
    (∀ (d : Disk) (p c : String), (file_write d p c).2 = true → lookupKV d p ≠ some c)
    ∧ (∀ (d : Disk) (s : SvcView) (d1 : Disk) (w1 : List String) (l1 : List (List String)),
      sd_install ver rp cal sup d s = Except.ok (d1, w1, l1) →
      sd_install ver rp cal sup d1 s = Except.ok (d1, [], l1)) := by
  constructor
  · intro d p c hw hsome
    unfold file_write at hw
    rw [hsome] at hw
    simp at hw
  · intro d s d1 w1 l1 h
    cases hst : service_template ver rp s with
    | error e =>
      rw [sd_install.eq_def, hst] at h
      exact Except.noConfusion h
    | ok tplS =>
      cases htt : timer_template cal s with
      | error e =>
        rw [sd_install.eq_def, hst, htt] at h
        exact Except.noConfusion h
      | ok tplT =>
        rw [sd_install.eq_def, hst, htt] at h
        rw [sd_install.eq_def, hst, htt]
        simp only at h ⊢
        split at h
        · rename_i hdr
          rw [if_pos hdr]
          cases hen : sd_enable sup s with
          | mk res elog =>
            cases res with
            | error c =>
              rw [hen] at h
              exact Except.noConfusion h
            | ok u =>
              rw [hen] at h
              simp only [Except.ok.injEq, Prod.mk.injEq] at h
              obtain ⟨hd1, hw1, hl1⟩ := h
              subst hd1
              subst hl1
              simp only [write_phase_idem d _ tplS _ tplT (unit_paths_ne s)]
        · exact Except.noConfusion h

/-- A calendar oracle that accepts every expression. -/
def calT : String → Bool := fun _ => true

/-- A Supervisor whose every invocation exits 0. -/
def supT : SupO := ⟨fun _ => 0⟩

/-- The service unit synthesized for `svc0 "s"` under systemd 250. -/
def tplW : String :=
  "# created by control.py\n# control.yaml=/p/control.yaml\n\n[Unit]\nDescription=c-s\n" ++
  "After=syslog.target network.target\nStartLimitIntervalSec=0\n\n[Service]\nType=simple\n" ++
  "Restart=no\nStandardOutput=journal\nStandardError=journal\nSyslogIdentifier=c-s\n" ++
  "User=root\nExecStart=/bin/true\nWorkingDirectory=/p\n"

set_option maxRecDepth 4096 in
theorem c7_witness :
    sd_install 250 id calT supT [] (svc0 "s") =
      Except.ok ([("/etc/systemd/system/c-s.service", tplW)],
        ["/etc/systemd/system/c-s.service"], [["systemctl", "daemon-reload"]])
    ∧ sd_install 250 id calT supT [("/etc/systemd/system/c-s.service", tplW)] (svc0 "s") =
      Except.ok ([("/etc/systemd/system/c-s.service", tplW)], [],
        [["systemctl", "daemon-reload"]]) := by
  have h1 : sd_install 250 id calT supT [] (svc0 "s") =
      Except.ok ([("/etc/systemd/system/c-s.service", tplW)],
        ["/etc/systemd/system/c-s.service"], [["systemctl", "daemon-reload"]]) := by
    decide
  exact ⟨h1, (c7_install_idempotent 250 id calT supT).2 [] (svc0 "s") _ _ _ h1⟩

/-- `SystemD.disable` (api.py 483-492): a no-op when not enabled; daemons
disable their service unit, periodic/cron stop then disable their timer
unit, other types do nothing. -/
def sd_disable (sup : SupO) (s : SvcView) : Except Nat Unit × List (List String) :=
  match is_enabled sup s with
  | (.error e, log) => (.error e, log)
  | (.ok false, log) => (.ok (), log)
  | (.ok true, log) =>
    if s.svcType = some "daemon" then
      let a := ["systemctl", "disable", unitSvc s]
      (if sup.code a = 0 then .ok () else .error (sup.code a), log ++ [a])
    else if s.svcType = some "periodic" ∨ s.svcType = some "cron" then
      let a := ["systemctl", "stop", unitTmr s]
      let b := ["systemctl", "disable", unitTmr s]
      if sup.code a = 0 then
        (if sup.code b = 0 then .ok () else .error (sup.code b), log ++ [a, b])
      else (.error (sup.code a), log ++ [a])
    else (.ok (), log)

/-- Removal of a file from the unit directory (`SystemD.file_delete`). -/
def delKey (d : Disk) (k : String) : Disk := d.filter (fun kv => !(kv.1 == k))

/-- `SystemD.uninstall` (api.py 384-405): best-effort stop and disable
(both outcomes swallowed), then deletion of the service and timer files.
The disk is the unit directory keyed by file name. -/
def sd_uninstall (sup : SupO) (d : Disk) (s : SvcView) : Disk × List (List String) :=
  let l1 := (sd_stop sup s).2
  let l2 := (sd_disable sup s).2
  (delKey (delKey d (unitSvc s)) (unitTmr s), l1 ++ l2)

/-- The ownership marker line embedded in every synthesized unit. -/
def marker (path : Option String) : String := "# control.yaml=" ++ pyOptStr path

/-- `SystemD.uninstall_all` (api.py 407-428): every `.timer`/`.service`
file in the unit directory whose content contains the ownership marker is
stopped, disabled (failures swallowed) and deleted; all other files are
kept untouched. The disk is the unit directory keyed by file name. -/
def uninstall_all (d : Disk) (cfgPath : Option String) : Disk × List (List String) :=
  match d with
  | [] => ([], [])
  | (f, content) :: rest =>
    let r := uninstall_all rest cfgPath
    if (strEndsWith f ".timer" || strEndsWith f ".service")
        && strContainsSub content (marker cfgPath) then
      (r.1, [["systemctl", "stop", f], ["systemctl", "disable", f]] ++ r.2)
    else ((f, content) :: r.1, r.2)

/-- `Commands.uninstall` (api.py 551-557): with an empty selector list the
ownership-based bulk uninstall runs, then the per-service loop runs over
`get_services(names)`. -/
def cmd_uninstall (sup : SupO) (cfg : ConfigG) (fuel : Nat) (d : Disk)
    (names : List String) : Option (Disk × List (List String)) :=
  let r1 := if names.length = 0 then uninstall_all d cfg.path else (d, [])
  match get_services cfg fuel (GFilter.list names) with
  | none => none
  | some svcs =>
    some (svcs.foldl (fun acc svc =>
      let r := sd_uninstall sup acc.1 svc
      (r.1, acc.2 ++ r.2)) r1)

theorem uninstall_all_lookup_none (d : Disk) (p : Option String) (f : String)
    (hf : ∀ c, (f, c) ∉ d) : lookupKV (uninstall_all d p).1 f = none := by
  induction d with
  | nil => rfl
  | cons kv rest ih =>
    obtain ⟨g, cg⟩ := kv
    have hg : g ≠ f := by
      intro he
      exact hf cg (by rw [he]; exact List.mem_cons_self _ _)
    have htail : ∀ c, (f, c) ∉ rest := fun c hc => hf c (List.mem_cons_of_mem _ hc)
    rw [uninstall_all]
    split
    · exact ih htail
    · simp only [lookupKV, hg, if_false]
      exact ih htail

/-- Claim C9: uninstall with an empty selector performs exactly the
ownership-based bulk uninstall — every `.timer`/`.service` file whose
content contains the manifest's marker is stopped, disabled and removed —
and the per-service loop over the empty selector visits nothing, so the
result is precisely that of `uninstall_all`. -/
theorem c9_uninstall_empty (sup : SupO) (cfg : ConfigG) (d : Disk) (fuel : Nat) :
    cmd_uninstall sup cfg (fuel + 1) d [] = some (uninstall_all d cfg.path)
    ∧ (∀ f c, (d.map Prod.fst).Nodup → (f, c) ∈ d →
        (strEndsWith f ".timer" || strEndsWith f ".service") = true →
        strContainsSub c (marker cfg.path) = true →
        lookupKV (uninstall_all d cfg.path).1 f = none
        ∧ ["systemctl", "stop", f] ∈ (uninstall_all d cfg.path).2
        ∧ ["systemctl", "disable", f] ∈ (uninstall_all d cfg.path).2) := by
  constructor
  · rfl
  · intro f c hnd hmem hext hmark
    induction d with
    | nil => cases hmem
    | cons kv rest ih =>
      obtain ⟨g, cg⟩ := kv
      simp only [List.map_cons, List.nodup_cons] at hnd
      obtain ⟨hgrest, hndrest⟩ := hnd
      rcases List.mem_cons.mp hmem with he | htail
      · obtain ⟨rfl, rfl⟩ := Prod.mk.injEq g cg f c ▸ he.symm
        rw [uninstall_all]
        rw [if_pos (by rw [hext, hmark]; rfl)]
        refine ⟨?_, ?_, ?_⟩
        · apply uninstall_all_lookup_none
          intro c' hc'
          exact hgrest (List.mem_map.mpr ⟨(_, c'), hc', rfl⟩)
        · exact List.mem_cons_self _ _
        · exact List.mem_cons_of_mem _ (List.mem_cons_self _ _)
      · have hgf : g ≠ f := by
          intro he2
          exact hgrest (List.mem_map.mpr ⟨(f, c), htail, by rw [he2]⟩)
        have := ih hndrest htail
        obtain ⟨h1, h2, h3⟩ := this
        rw [uninstall_all]
        split
        · exact ⟨h1, List.mem_cons_of_mem _ (List.mem_cons_of_mem _ h2),
            List.mem_cons_of_mem _ (List.mem_cons_of_mem _ h3)⟩
        · refine ⟨?_, h2, h3⟩
          simp only [lookupKV, hgf, if_false]
          exact h1

/-- A unit directory with one unit owned by `/p/control.yaml` and one
foreign unit. -/
def dC9 : Disk :=
  [("c-a.service", "# created by control.py\n# control.yaml=/p/control.yaml\n\ncontent"),
   ("other.service", "unrelated")]

theorem c9_witness :
    cmd_uninstall supT w1Cfg 1 dC9 [] = some (uninstall_all dC9 w1Cfg.path)
    ∧ (lookupKV (uninstall_all dC9 w1Cfg.path).1 "c-a.service" = none
       ∧ ["systemctl", "stop", "c-a.service"] ∈ (uninstall_all dC9 w1Cfg.path).2
       ∧ ["systemctl", "disable", "c-a.service"] ∈ (uninstall_all dC9 w1Cfg.path).2) :=
  ⟨(c9_uninstall_empty supT w1Cfg dC9 0).1,
   (c9_uninstall_empty supT w1Cfg dC9 0).2 "c-a.service"
     "# created by control.py\n# control.yaml=/p/control.yaml\n\ncontent"
     (by decide) (by decide) (by decide) (by decide)⟩

/-- A character that does not close a placeholder (`[^}]` of the
placeholder regex). -/
def notRB (c : Char) : Bool := c != '}'

theorem dropWhile_length_le {α : Type} (p : α → Bool) :
    ∀ l : List α, (l.dropWhile p).length ≤ l.length := by
  intro l
  induction l with
  | nil => simp
  | cons a t ih =>
    rw [List.dropWhile_cons]
    split
    · exact le_trans ih (by simp)
    · simp

/-- One segment of a manifest string as scanned by the placeholder regex
`{[^}]+}` of `apply_env_substitution` (models.py 129): either a literal
character outside every match, or the inner name of one match. -/
inductive Seg where
  | lit (c : Char)
  | ph (inner : List Char)
deriving DecidableEq, Repr

/-- The full text of a match with inner name `i`: `{i}`. -/
def mkPh (i : List Char) : List Char := '{' :: (i ++ ['}'])

/-- `match[1:-1]`: the name inside a match. -/
def phName (m : List Char) : List Char := (m.drop 1).dropLast

/-- The left-to-right non-overlapping scan of `re.findall(r'{[^}]+}', s)`,
kept together with the literal characters between matches so that the
original string is recoverable. A `{` opens a match exactly when at least
one non-`}` character stands before the next `}`. -/
def segs : List Char → List Seg
  | [] => []
  | c :: rest =>
    if c = '{' then
      match h : rest.dropWhile notRB with
      | [] => Seg.lit c :: segs rest
      | _ :: rest3 =>
        if (rest.takeWhile notRB).isEmpty then Seg.lit c :: segs rest
        else Seg.ph (rest.takeWhile notRB) :: segs rest3
    else Seg.lit c :: segs rest
  termination_by s => s.length
  decreasing_by
    all_goals
      first
        | (simp only [List.length_cons]; omega)
        | (have h1 : (rest.dropWhile notRB).length ≤ rest.length := dropWhile_length_le notRB rest
           rw [h] at h1
           simp only [List.length_cons] at h1
           simp only [List.length_cons]
           omega)

/-- The match list of `re.findall(r'{[^}]+}', s)`. -/
def findall (s : List Char) : List (List Char) :=
  (segs s).filterMap (fun sg => match sg with
    | Seg.ph i => some (mkPh i)
    | Seg.lit _ => none)

/-- Association lookup with character-list keys (the `env` dict). -/
def lookupL (env : List (List Char × List Char)) (k : List Char) : Option (List Char) :=
  match env with
  | [] => none
  | (a, b) :: rest => if a = k then some b else lookupL rest k

/-- The `env_subst` string case of `ConfigModel.apply_env_substitution`
(models.py 128-135): fold over the matches of the original string; a match
whose name is a key of `env` has all its occurrences replaced in the
current string, any other match is recorded as a warning. Returns the
resulting string and the warned matches. -/
def env_subst (env : List (List Char × List Char)) (s : List Char) :
    List Char × List (List Char) :=
  (findall s).foldl
    (fun acc m =>
      match lookupL env (phName m) with
      | some v => (replaceAll m v acc.1, acc.2)
      | none => (acc.1, acc.2 ++ [m]))
    (s, [])

/-- Rendering of one segment in an intermediate state of the fold: a match
is substituted exactly when its name is a key of `env` and the match has
already been processed (`done`). -/
def renderSeg (env : List (List Char × List Char)) (done : List (List Char)) :
    Seg → List Char
  | Seg.lit c => [c]
  | Seg.ph i =>
    match lookupL env i with
    | some v => if i ∈ done then v else mkPh i
    | none => mkPh i

/-- Rendering of a segment list. -/
def renderPartial (env : List (List Char × List Char)) (done : List (List Char)) :
    List Seg → List Char
  | [] => []
  | sg :: rest => renderSeg env done sg ++ renderPartial env done rest

/-- The substitution exactly as the spec words it: every `{name}` match
whose name is a key of `env` is replaced by that key's value, and every
other match is left literally unchanged. -/
def env_subst_spec (env : List (List Char × List Char)) (s : List Char) : List Char :=
  ((segs s).map (fun sg => match sg with
    | Seg.lit c => [c]
    | Seg.ph i =>
      match lookupL env i with
      | some v => v
      | none => mkPh i)).flatten

theorem replaceAll_nil (pat rep : List Char) : replaceAll pat rep [] = [] := by
  cases pat <;> simp [replaceAll]

theorem replaceAll_cons_pos (p : Char) (ps rep : List Char) (c : Char) (rest : List Char)
    (h : (p :: ps).isPrefixOf (c :: rest) = true) :
    replaceAll (p :: ps) rep (c :: rest) =
      rep ++ replaceAll (p :: ps) rep ((c :: rest).drop (p :: ps).length) := by
  rw [replaceAll]
  simp [h]

theorem replaceAll_cons_neg (p : Char) (ps rep : List Char) (c : Char) (rest : List Char)
    (h : ¬ (p :: ps).isPrefixOf (c :: rest) = true) :
    replaceAll (p :: ps) rep (c :: rest) = c :: replaceAll (p :: ps) rep rest := by
  rw [replaceAll]
  simp [h]

/-- Replacement of a pattern opening with `{` walks unchanged through a
stretch of brace-free characters. -/
theorem replaceAll_skip (pt rep : List Char) :
    ∀ (xs y : List Char), (∀ ch ∈ xs, ch ≠ '{') →
      replaceAll ('{' :: pt) rep (xs ++ y) = xs ++ replaceAll ('{' :: pt) rep y := by
  intro xs
  induction xs with
  | nil => intro y _; rfl
  | cons x t ih =>
    intro y hx
    have hx0 : x ≠ '{' := hx x (List.mem_cons_self _ _)
    have hpre : ¬ ('{' :: pt).isPrefixOf (x :: (t ++ y)) = true := by
      simp only [List.isPrefixOf, Bool.and_eq_true, beq_iff_eq]
      intro hcon
      exact hx0 hcon.1.symm
    rw [List.cons_append, replaceAll_cons_neg _ _ _ _ _ hpre,
      ih y (fun ch hch => hx ch (List.mem_cons_of_mem _ hch))]
    simp

/-- A pattern containing `}` leaves a `}`-free string unchanged. -/
theorem replaceAll_no_rb (p : Char) (ps rep : List Char) (hpat : '}' ∈ p :: ps) :
    ∀ s : List Char, '}' ∉ s → replaceAll (p :: ps) rep s = s := by
  intro s
  induction s with
  | nil => intro _; exact replaceAll_nil _ _
  | cons c rest ih =>
    intro hs
    have hpre : ¬ (p :: ps).isPrefixOf (c :: rest) = true := by
      intro hcon
      rw [List.isPrefixOf_iff_prefix] at hcon
      exact hs (hcon.subset hpat)
    rw [replaceAll_cons_neg _ _ _ _ _ hpre,
      ih (fun hmem => hs (List.mem_cons_of_mem _ hmem))]

/-- Replacement fires on an exact occurrence of the pattern. -/
theorem replaceAll_hit (p : Char) (ps rep y : List Char) :
    replaceAll (p :: ps) rep ((p :: ps) ++ y) = rep ++ replaceAll (p :: ps) rep y := by
  have hpre : (p :: ps).isPrefixOf (p :: (ps ++ y)) = true := by
    rw [List.isPrefixOf_iff_prefix]
    exact ⟨y, by simp⟩
  rw [List.cons_append, replaceAll_cons_pos _ _ _ _ _ hpre]
  congr 1
  have : (p :: (ps ++ y)) = (p :: ps) ++ y := by simp
  rw [this, List.drop_left]

/-- Two placeholder texts with `}`-free names: one is a prefix of the
other followed by anything only when the names coincide. -/
theorem ph_prefix_eq (r : List Char) :
    ∀ (inner i : List Char), '}' ∉ i → '}' ∉ inner →
      (i ++ ['}']) <+: (inner ++ ['}'] ++ r) → i = inner := by
  intro inner
  induction inner with
  | nil =>
    intro i hi _ hpre
    cases i with
    | nil => rfl
    | cons a i2 =>
      rw [List.nil_append, List.cons_append, List.singleton_append,
        List.cons_prefix_cons] at hpre
      exact absurd (show ('}' : Char) ∈ a :: i2 by
        rw [← hpre.1]; exact List.mem_cons_self a i2) hi
  | cons b inner2 ih =>
    intro i hi hinner hpre
    cases i with
    | nil =>
      rw [List.nil_append, List.cons_append, List.cons_append, List.cons_prefix_cons] at hpre
      exact absurd (show ('}' : Char) ∈ b :: inner2 by
        rw [hpre.1]; exact List.mem_cons_self b inner2) hinner
    | cons a i2 =>
      rw [List.cons_append, List.cons_append, List.cons_append, List.cons_prefix_cons] at hpre
      have h2 := ih i2 (fun hm => hi (List.mem_cons_of_mem _ hm))
        (fun hm => hinner (List.mem_cons_of_mem _ hm)) (by simpa using hpre.2)
      rw [hpre.1, h2]

theorem segs_nil : segs [] = [] := by rw [segs]

theorem segs_lit (c : Char) (rest : List Char) (hc : ¬ c = '{') :
    segs (c :: rest) = Seg.lit c :: segs rest := by
  rw [segs]
  simp [hc]

theorem segs_open_nil (rest : List Char) (h : rest.dropWhile notRB = []) :
    segs ('{' :: rest) = Seg.lit '{' :: segs rest := by
  rw [segs]
  rw [if_pos rfl]
  split
  · rfl
  · rename_i d rest3 hdw
    rw [h] at hdw
    cases hdw

theorem segs_open_empty (rest : List Char) (d : Char) (rest3 : List Char)
    (h : rest.dropWhile notRB = d :: rest3) (hte : rest.takeWhile notRB = []) :
    segs ('{' :: rest) = Seg.lit '{' :: segs rest := by
  rw [segs]
  rw [if_pos rfl]
  split
  · rfl
  · rename_i d2 rest3b hdw
    rw [hte]
    simp

theorem segs_open_ph (rest : List Char) (d : Char) (rest3 : List Char)
    (h : rest.dropWhile notRB = d :: rest3) (hte : ¬ rest.takeWhile notRB = []) :
    segs ('{' :: rest) = Seg.ph (rest.takeWhile notRB) :: segs rest3 := by
  rw [segs]
  rw [if_pos rfl]
  split
  · rename_i hdw
    rw [h] at hdw
    cases hdw
  · rename_i d2 rest3b hdw
    rw [hdw] at h
    obtain ⟨rfl, rfl⟩ := List.cons.injEq .. ▸ h
    rw [if_neg (by simpa [List.isEmpty_iff] using hte)]

theorem dropWhile_head_not {α : Type} (p : α → Bool) :
    ∀ (l : List α) (x : α) (xs : List α), l.dropWhile p = x :: xs → p x = false := by
  intro l
  induction l with
  | nil => intro x xs h; cases h
  | cons a t ih =>
    intro x xs h
    rw [List.dropWhile_cons] at h
    split at h
    · exact ih x xs h
    · cases h
      rename_i hpa
      exact Bool.not_eq_true _ ▸ hpa

theorem mem_takeWhile_pred {α : Type} (p : α → Bool) :
    ∀ (l : List α) (x : α), x ∈ l.takeWhile p → p x = true := by
  intro l
  induction l with
  | nil => intro x h; cases h
  | cons a t ih =>
    intro x h
    rw [List.takeWhile_cons] at h
    split at h
    · rcases List.mem_cons.mp h with rfl | h2
      · assumption
      · exact ih x h2
    · cases h

theorem lookupL_mem (env : List (List Char × List Char)) (k v : List Char)
    (h : lookupL env k = some v) : (k, v) ∈ env := by
  induction env with
  | nil => cases h
  | cons kv rest ih =>
    obtain ⟨a, b⟩ := kv
    rw [lookupL] at h
    split at h
    · cases h
      rename_i ha
      rw [ha]
      exact List.mem_cons_self _ _
    · exact List.mem_cons_of_mem _ (ih h)

theorem notRB_false_iff (x : Char) : notRB x = false ↔ x = '}' := by
  simp [notRB]

theorem renderPartial_cons (env : List (List Char × List Char)) (done : List (List Char))
    (sg : Seg) (rest : List Seg) :
    renderPartial env done (sg :: rest) =
      renderSeg env done sg ++ renderPartial env done rest := rfl

theorem renderPartial_map_lit (env : List (List Char × List Char))
    (done : List (List Char)) : ∀ t : List Char, renderPartial env done (t.map Seg.lit) = t := by
  intro t
  induction t with
  | nil => rfl
  | cons c rest ih =>
    rw [List.map_cons, renderPartial_cons, ih]
    rfl

/-- A string with no closing brace scans to pure literals. -/
theorem segs_all_lit : ∀ (n : Nat) (t : List Char), t.length ≤ n → '}' ∉ t →
    segs t = t.map Seg.lit := by
  intro n
  induction n with
  | zero =>
    intro t ht _
    have : t = [] := List.eq_nil_of_length_eq_zero (Nat.le_zero.mp ht)
    rw [this]
    exact segs_nil
  | succ n ih =>
    intro t ht hrb
    cases t with
    | nil => exact segs_nil
    | cons c rest =>
      have hrest : '}' ∉ rest := fun hm => hrb (List.mem_cons_of_mem _ hm)
      have hlen : rest.length ≤ n := by
        simp only [List.length_cons] at ht
        omega
      by_cases hc : c = '{'
      · subst hc
        have hdw : rest.dropWhile notRB = [] := by
          rw [List.dropWhile_eq_nil_iff]
          intro x hx
          have : x ≠ '}' := fun he => hrest (he ▸ hx)
          simp [notRB, this]
        rw [segs_open_nil rest hdw, ih rest hlen hrest]
        rfl
      · rw [segs_lit c rest hc, ih rest hlen hrest]
        rfl

/-- The decomposition of the scanned string at a placeholder: the inner
name, the closing brace, and the remainder. -/
theorem scan_decomp (rest : List Char) (d : Char) (rest3 : List Char)
    (h : rest.dropWhile notRB = d :: rest3) :
    rest = rest.takeWhile notRB ++ '}' :: rest3 := by
  have hd2 : d = '}' :=
    (notRB_false_iff d).mp (dropWhile_head_not notRB rest d rest3 h)
  have hsplit := List.takeWhile_append_dropWhile notRB rest
  rw [h, hd2] at hsplit
  exact hsplit.symm

/-- Every scanned placeholder name is non-empty and free of `}`. -/
theorem segs_ph_shape : ∀ (n : Nat) (s : List Char), s.length ≤ n →
    ∀ i, Seg.ph i ∈ segs s → i ≠ [] ∧ ∀ ch ∈ i, ch ≠ '}' := by
  intro n
  induction n with
  | zero =>
    intro s hs i hi
    rw [List.eq_nil_of_length_eq_zero (Nat.le_zero.mp hs), segs_nil] at hi
    cases hi
  | succ n ih =>
    intro s hs i hi
    cases s with
    | nil => rw [segs_nil] at hi; cases hi
    | cons c rest =>
      have hlen : rest.length ≤ n := by
        simp only [List.length_cons] at hs
        omega
      by_cases hc : c = '{'
      · subst hc
        cases hdw : rest.dropWhile notRB with
        | nil =>
          rw [segs_open_nil rest hdw] at hi
          rcases List.mem_cons.mp hi with he | hi2
          · cases he
          · exact ih rest hlen i hi2
        | cons d rest3 =>
          by_cases hte : rest.takeWhile notRB = []
          · rw [segs_open_empty rest d rest3 hdw hte] at hi
            rcases List.mem_cons.mp hi with he | hi2
            · cases he
            · exact ih rest hlen i hi2
          · rw [segs_open_ph rest d rest3 hdw hte] at hi
            rcases List.mem_cons.mp hi with he | hi2
            · cases he
              refine ⟨hte, ?_⟩
              intro ch hch
              have := mem_takeWhile_pred notRB rest ch hch
              simp [notRB] at this
              exact this
            · have hlen3 : rest3.length ≤ n := by
                have h1 : (rest.dropWhile notRB).length ≤ rest.length :=
                  dropWhile_length_le notRB rest
                rw [hdw] at h1
                simp only [List.length_cons] at h1 hs
                omega
              exact ih rest3 hlen3 i hi2
      · rw [segs_lit c rest hc] at hi
        rcases List.mem_cons.mp hi with he | hi2
        · cases he
        · exact ih rest hlen i hi2

/-- Rendering the scan with nothing substituted recovers the string. -/
theorem renderPartial_orig (env : List (List Char × List Char)) :
    ∀ (n : Nat) (s : List Char), s.length ≤ n → renderPartial env [] (segs s) = s := by
  intro n
  induction n with
  | zero =>
    intro s hs
    rw [List.eq_nil_of_length_eq_zero (Nat.le_zero.mp hs), segs_nil]
    rfl
  | succ n ih =>
    intro s hs
    cases s with
    | nil => rw [segs_nil]; rfl
    | cons c rest =>
      have hlen : rest.length ≤ n := by
        simp only [List.length_cons] at hs
        omega
      by_cases hc : c = '{'
      · subst hc
        cases hdw : rest.dropWhile notRB with
        | nil =>
          rw [segs_open_nil rest hdw, renderPartial_cons, ih rest hlen]
          rfl
        | cons d rest3 =>
          by_cases hte : rest.takeWhile notRB = []
          · rw [segs_open_empty rest d rest3 hdw hte, renderPartial_cons, ih rest hlen]
            rfl
          · rw [segs_open_ph rest d rest3 hdw hte, renderPartial_cons]
            have hlen3 : rest3.length ≤ n := by
              have h1 : (rest.dropWhile notRB).length ≤ rest.length :=
                dropWhile_length_le notRB rest
              rw [hdw] at h1
              simp only [List.length_cons] at h1 hs
              omega
            rw [ih rest3 hlen3]
            have hd := scan_decomp rest d rest3 hdw
            have hchunk : renderSeg env [] (Seg.ph (rest.takeWhile notRB)) =
                mkPh (rest.takeWhile notRB) := by
              rw [renderSeg]
              cases lookupL env (rest.takeWhile notRB) <;> simp
            rw [hchunk, mkPh]
            conv_rhs => rw [hd]
            simp
      · rw [segs_lit c rest hc, renderPartial_cons, ih rest hlen]
        rfl

theorem pat_not_prefix_rb (i : List Char) (hiNE : i ≠ [])
    (hiRB : ∀ ch ∈ i, ch ≠ '}') (R : List Char) :
    ¬ (mkPh i).isPrefixOf ('{' :: '}' :: R) = true := by
  cases i with
  | nil => exact absurd rfl hiNE
  | cons a i2 =>
    have ha : a ≠ '}' := hiRB a (List.mem_cons_self _ _)
    simp [mkPh, List.isPrefixOf, ha]

/-- Replacing one known match rewrites exactly the so-far-unsubstituted
occurrences of that placeholder in the rendering: the fold step of
`env_subst`, provided every value is `{`-free and every scanned name is
`{`-free. -/
theorem replace_render (env : List (List Char × List Char)) (i v : List Char)
    (hv : ∀ p ∈ env, ∀ ch ∈ p.2, ch ≠ '{')
    (hiNE : i ≠ []) (hiRB : ∀ ch ∈ i, ch ≠ '}')
    (hlv : lookupL env i = some v) :
    ∀ (n : Nat) (s : List Char), s.length ≤ n →
      (∀ j, Seg.ph j ∈ segs s → ∀ ch ∈ j, ch ≠ '{') →
      ∀ (done : List (List Char)),
        replaceAll (mkPh i) v (renderPartial env done (segs s)) =
          renderPartial env (i :: done) (segs s) := by
  intro n
  induction n with
  | zero =>
    intro s hs _ done
    rw [List.eq_nil_of_length_eq_zero (Nat.le_zero.mp hs), segs_nil]
    exact replaceAll_nil _ _
  | succ n ih =>
    intro s hs hseg done
    cases s with
    | nil =>
      rw [segs_nil]
      exact replaceAll_nil _ _
    | cons c rest =>
      have hlen : rest.length ≤ n := by
        simp only [List.length_cons] at hs
        omega
      by_cases hc : c = '{'
      · subst hc
        cases hdw : rest.dropWhile notRB with
        | nil =>
          have hrb : '}' ∉ rest := by
            rw [List.dropWhile_eq_nil_iff] at hdw
            intro hm
            have := hdw '}' hm
            simp [notRB] at this
          have hsl := segs_all_lit n rest hlen hrb
          rw [segs_open_nil rest hdw, hsl, renderPartial_cons, renderPartial_cons,
            show renderSeg env done (Seg.lit '{') = ['{'] from rfl,
            show renderSeg env (i :: done) (Seg.lit '{') = ['{'] from rfl,
            renderPartial_map_lit, renderPartial_map_lit]
          cases hi0 : i with
          | nil => exact absurd hi0 hiNE
          | cons a i2 =>
            apply replaceAll_no_rb
            · simp [mkPh]
            · intro hm
              rcases List.mem_cons.mp hm with he | hm2
              · cases he
              · exact hrb hm2
        | cons d rest3 =>
          have hlen3 : rest3.length ≤ n := by
            have h1 : (rest.dropWhile notRB).length ≤ rest.length :=
              dropWhile_length_le notRB rest
            rw [hdw] at h1
            simp only [List.length_cons] at h1 hs
            omega
          by_cases hte : rest.takeWhile notRB = []
          · have hd := scan_decomp rest d rest3 hdw
            rw [hte, List.nil_append] at hd
            have hsr : segs rest = Seg.lit '}' :: segs rest3 := by
              rw [hd]
              exact segs_lit '}' rest3 (by decide)
            have hseg3 : ∀ j, Seg.ph j ∈ segs rest3 → ∀ ch ∈ j, ch ≠ '{' := by
              intro j hj
              apply hseg j
              rw [segs_open_empty rest d rest3 hdw hte, hsr]
              exact List.mem_cons_of_mem _ (List.mem_cons_of_mem _ hj)
            rw [segs_open_empty rest d rest3 hdw hte, renderPartial_cons,
              renderPartial_cons,
              show renderSeg env done (Seg.lit '{') = ['{'] from rfl,
              show renderSeg env (i :: done) (Seg.lit '{') = ['{'] from rfl,
              hsr, renderPartial_cons, renderPartial_cons,
              show renderSeg env done (Seg.lit '}') = ['}'] from rfl,
              show renderSeg env (i :: done) (Seg.lit '}') = ['}'] from rfl]
            have hX : rest3.length ≤ n := hlen3
            rw [show (['{'] ++ (['}'] ++ renderPartial env done (segs rest3))) =
              '{' :: '}' :: renderPartial env done (segs rest3) by simp]
            rw [show mkPh i = '{' :: (i ++ ['}']) from rfl] at *
            rw [replaceAll_cons_neg _ _ _ _ _ (pat_not_prefix_rb i hiNE hiRB _)]
            rw [replaceAll_cons_neg _ _ _ _ _ (by simp [List.isPrefixOf])]
            rw [ih rest3 hX hseg3 done]
            simp
          · have hd := scan_decomp rest d rest3 hdw
            have hInnerLB : ∀ ch ∈ rest.takeWhile notRB, ch ≠ '{' := by
              apply hseg
              rw [segs_open_ph rest d rest3 hdw hte]
              exact List.mem_cons_self _ _
            have hInnerRB : ∀ ch ∈ rest.takeWhile notRB, ch ≠ '}' := by
              intro ch hch
              have := mem_takeWhile_pred notRB rest ch hch
              simp [notRB] at this
              exact this
            have hseg3 : ∀ j, Seg.ph j ∈ segs rest3 → ∀ ch ∈ j, ch ≠ '{' := by
              intro j hj
              apply hseg j
              rw [segs_open_ph rest d rest3 hdw hte]
              exact List.mem_cons_of_mem _ hj
            rw [segs_open_ph rest d rest3 hdw hte, renderPartial_cons, renderPartial_cons]
            cases hl : lookupL env (rest.takeWhile notRB) with
            | some w =>
              by_cases hdone : (rest.takeWhile notRB) ∈ done
              · have hw : ∀ ch ∈ w, ch ≠ '{' :=
                  fun ch hch => hv _ (lookupL_mem env _ w hl) ch hch
                rw [show renderSeg env done (Seg.ph (rest.takeWhile notRB)) = w by
                  rw [renderSeg, hl]; simp [hdone]]
                rw [show renderSeg env (i :: done) (Seg.ph (rest.takeWhile notRB)) = w by
                  rw [renderSeg, hl]; simp [List.mem_cons_of_mem _ hdone]]
                rw [show mkPh i = '{' :: (i ++ ['}']) from rfl]
                rw [replaceAll_skip _ _ w _ hw]
                congr 1
                exact ih rest3 hlen3 hseg3 done
              · rw [show renderSeg env done (Seg.ph (rest.takeWhile notRB)) =
                    mkPh (rest.takeWhile notRB) by
                  rw [renderSeg, hl]; simp [hdone]]
                by_cases hii : rest.takeWhile notRB = i
                · have hwv : w = v := by
                    rw [hii, hlv] at hl
                    exact (Option.some.inj hl).symm
                  rw [show renderSeg env (i :: done) (Seg.ph (rest.takeWhile notRB)) = v by
                    rw [renderSeg, hl, hwv]
                    simp [hii]]
                  rw [hii]
                  rw [show mkPh i = '{' :: (i ++ ['}']) from rfl]
                  rw [show ('{' :: (i ++ ['}'])) ++ renderPartial env done (segs rest3) =
                    '{' :: ((i ++ ['}']) ++ renderPartial env done (segs rest3)) by simp]
                  rw [show ('{' :: ((i ++ ['}']) ++ renderPartial env done (segs rest3))) =
                    ('{' :: (i ++ ['}'])) ++ renderPartial env done (segs rest3) by simp]
                  rw [replaceAll_hit]
                  congr 1
                  exact ih rest3 hlen3 hseg3 done
                · rw [show renderSeg env (i :: done) (Seg.ph (rest.takeWhile notRB)) =
                      mkPh (rest.takeWhile notRB) by
                    rw [renderSeg, hl]
                    simp [hii, hdone]]
                  have hnp : ¬ (mkPh i).isPrefixOf
                      (mkPh (rest.takeWhile notRB) ++
                        renderPartial env done (segs rest3)) = true := by
                    intro hcon
                    rw [List.isPrefixOf_iff_prefix] at hcon
                    rw [show mkPh i = '{' :: (i ++ ['}']) from rfl,
                      show mkPh (rest.takeWhile notRB) ++
                          renderPartial env done (segs rest3) =
                        '{' :: ((rest.takeWhile notRB ++ ['}']) ++
                          renderPartial env done (segs rest3)) by simp [mkPh]] at hcon
                    rw [List.cons_prefix_cons] at hcon
                    have hres := ph_prefix_eq (renderPartial env done (segs rest3))
                      (rest.takeWhile notRB) i
                      (fun hm => hiRB '}' hm rfl)
                      (fun hm => hInnerRB '}' hm rfl)
                      (by
                        have h2 := hcon.2
                        rwa [List.append_assoc] at h2 ⊢)
                    exact hii hres.symm
                  rw [show mkPh (rest.takeWhile notRB) ++
                      renderPartial env done (segs rest3) =
                    '{' :: ((rest.takeWhile notRB ++ ['}']) ++
                      renderPartial env done (segs rest3)) by simp [mkPh]] at hnp ⊢
                  rw [show mkPh i = '{' :: (i ++ ['}']) from rfl] at hnp ⊢
                  rw [replaceAll_cons_neg _ _ _ _ _ hnp]
                  rw [replaceAll_skip _ _ (rest.takeWhile notRB ++ ['}']) _ (by
                    intro ch hch
                    rcases List.mem_append.mp hch with h1 | h2
                    · exact hInnerLB ch h1
                    · rcases List.mem_singleton.mp h2 with rfl
                      decide)]
                  rw [show ('{' :: (i ++ ['}'])) = mkPh i from rfl,
                    ih rest3 hlen3 hseg3 done]
                  simp [mkPh]
            | none =>
              have hii : ¬ rest.takeWhile notRB = i := by
                intro he
                rw [he, hlv] at hl
                cases hl
              rw [show renderSeg env done (Seg.ph (rest.takeWhile notRB)) =
                  mkPh (rest.takeWhile notRB) by rw [renderSeg, hl]]
              rw [show renderSeg env (i :: done) (Seg.ph (rest.takeWhile notRB)) =
                  mkPh (rest.takeWhile notRB) by rw [renderSeg, hl]]
              have hnp : ¬ (mkPh i).isPrefixOf
                  (mkPh (rest.takeWhile notRB) ++
                    renderPartial env done (segs rest3)) = true := by
                intro hcon
                rw [List.isPrefixOf_iff_prefix] at hcon
                rw [show mkPh i = '{' :: (i ++ ['}']) from rfl,
                  show mkPh (rest.takeWhile notRB) ++
                      renderPartial env done (segs rest3) =
                    '{' :: ((rest.takeWhile notRB ++ ['}']) ++
                      renderPartial env done (segs rest3)) by simp [mkPh]] at hcon
                rw [List.cons_prefix_cons] at hcon
                have hres := ph_prefix_eq (renderPartial env done (segs rest3))
                  (rest.takeWhile notRB) i
                  (fun hm => hiRB '}' hm rfl)
                  (fun hm => hInnerRB '}' hm rfl)
                  (by
                    have h2 := hcon.2
                    rwa [List.append_assoc] at h2 ⊢)
                exact hii hres.symm
              rw [show mkPh (rest.takeWhile notRB) ++
                  renderPartial env done (segs rest3) =
                '{' :: ((rest.takeWhile notRB ++ ['}']) ++
                  renderPartial env done (segs rest3)) by simp [mkPh]] at hnp ⊢
              rw [show mkPh i = '{' :: (i ++ ['}']) from rfl] at hnp ⊢
              rw [replaceAll_cons_neg _ _ _ _ _ hnp]
              rw [replaceAll_skip _ _ (rest.takeWhile notRB ++ ['}']) _ (by
                intro ch hch
                rcases List.mem_append.mp hch with h1 | h2
                · exact hInnerLB ch h1
                · rcases List.mem_singleton.mp h2 with rfl
                  decide)]
              rw [show ('{' :: (i ++ ['}'])) = mkPh i from rfl,
                ih rest3 hlen3 hseg3 done]
              simp [mkPh]
      · have hseg2 : ∀ j, Seg.ph j ∈ segs rest → ∀ ch ∈ j, ch ≠ '{' := by
          intro j hj
          apply hseg j
          rw [segs_lit c rest hc]
          exact List.mem_cons_of_mem _ hj
        rw [segs_lit c rest hc, renderPartial_cons, renderPartial_cons,
          show renderSeg env done (Seg.lit c) = [c] from rfl,
          show renderSeg env (i :: done) (Seg.lit c) = [c] from rfl,
          show mkPh i = '{' :: (i ++ ['}']) from rfl,
          replaceAll_skip _ _ [c] _ (by
            intro ch hch
            rcases List.mem_singleton.mp hch with rfl
            exact hc)]
        congr 1
        exact ih rest hlen hseg2 done

theorem phName_mkPh (j : List Char) : phName (mkPh j) = j := by
  simp [phName, mkPh]

/-- Adding an unknown name to the processed set does not change the
rendering. -/
theorem renderPartial_skip_unknown (env : List (List Char × List Char))
    (done : List (List Char)) (j : List Char) (hj : lookupL env j = none) :
    ∀ l : List Seg, renderPartial env (j :: done) l = renderPartial env done l := by
  intro l
  induction l with
  | nil => rfl
  | cons sg rest ih =>
    cases sg with
    | lit c =>
      rw [renderPartial_cons, renderPartial_cons, ih]
      rfl
    | ph i =>
      rw [renderPartial_cons, renderPartial_cons, ih]
      congr 1
      cases hli : lookupL env i with
      | none => simp [renderSeg, hli]
      | some w =>
        have hij : i ≠ j := by
          intro he
          rw [he, hj] at hli
          cases hli
        simp [renderSeg, hli, List.mem_cons, hij]

/-- Once every scanned name is in the processed set, the rendering is the
specified substitution. -/
theorem renderPartial_full (env : List (List Char × List Char))
    (done : List (List Char)) :
    ∀ l : List Seg, (∀ i, Seg.ph i ∈ l → i ∈ done) →
      renderPartial env done l = (l.map (fun sg => match sg with
        | Seg.lit c => [c]
        | Seg.ph i =>
          match lookupL env i with
          | some v => v
          | none => mkPh i)).flatten := by
  intro l
  induction l with
  | nil => intro _; rfl
  | cons sg rest ih =>
    intro hall
    have htail : ∀ i, Seg.ph i ∈ rest → i ∈ done :=
      fun i hi => hall i (List.mem_cons_of_mem _ hi)
    rw [renderPartial_cons, ih htail, List.map_cons, List.flatten_cons]
    congr 1
    cases sg with
    | lit c => rfl
    | ph i =>
      have hid : i ∈ done := hall i (List.mem_cons_self _ _)
      cases hli : lookupL env i with
      | none => simp [renderSeg, hli]
      | some w => simp [renderSeg, hli, hid]

/-- The fold of `env_subst` over a suffix of the match list, tracked
against the rendering of the scan. -/
theorem env_subst_fold (env : List (List Char × List Char))
    (hv : ∀ p ∈ env, ∀ ch ∈ p.2, ch ≠ '{') (s : List Char)
    (hs : ∀ j, Seg.ph j ∈ segs s → ∀ ch ∈ j, ch ≠ '{') :
    ∀ (ms : List (List Char)),
      (∀ m ∈ ms, ∃ j, Seg.ph j ∈ segs s ∧ m = mkPh j) →
      ∀ (done : List (List Char)) (w0 : List (List Char)),
      ms.foldl
        (fun acc m =>
          match lookupL env (phName m) with
          | some v => (replaceAll m v acc.1, acc.2)
          | none => (acc.1, acc.2 ++ [m]))
        (renderPartial env done (segs s), w0) =
      (renderPartial env ((ms.map phName).reverse ++ done) (segs s),
       w0 ++ ms.filter (fun m => (lookupL env (phName m)).isNone)) := by
  intro ms
  induction ms with
  | nil =>
    intro _ done w0
    simp
  | cons m ms2 ih =>
    intro hms done w0
    obtain ⟨j, hjseg, rfl⟩ := hms m (List.mem_cons_self _ _)
    have hshape := segs_ph_shape s.length s (le_refl _) j hjseg
    rw [List.foldl_cons]
    cases hlj : lookupL env (phName (mkPh j)) with
    | some vj =>
      have hlj2 : lookupL env j = some vj := by rwa [phName_mkPh] at hlj
      have hstep : replaceAll (mkPh j) vj (renderPartial env done (segs s)) =
          renderPartial env (j :: done) (segs s) :=
        replace_render env j vj hv hshape.1 hshape.2 hlj2 s.length s (le_refl _) hs done
      dsimp only
      rw [hstep, ih (fun m2 hm2 => hms m2 (List.mem_cons_of_mem _ hm2)) (j :: done) w0]
      rw [List.map_cons, List.reverse_cons, List.append_assoc, List.singleton_append]
      rw [List.filter_cons]
      simp [hlj]
      rw [phName_mkPh]
    | none =>
      dsimp only
      rw [show renderPartial env done (segs s) =
          renderPartial env (j :: done) (segs s) from
        (renderPartial_skip_unknown env done j (by rwa [phName_mkPh] at hlj) _).symm]
      rw [ih (fun m2 hm2 => hms m2 (List.mem_cons_of_mem _ hm2)) (j :: done) (w0 ++ [mkPh j])]
      rw [List.map_cons, List.reverse_cons, List.append_assoc, List.singleton_append]
      rw [List.filter_cons]
      simp [hlj]
      rw [phName_mkPh]

/-- Claim C6 (amended): provided no `env` value contains `{` and no
scanned placeholder name contains `{`, substitution replaces each match
whose name is a key of `env` with that key's value, leaves every other
match literally unchanged, and warns exactly on the matches with unknown
names; it never fails. (Without the provisos, replacement can rewrite
identical placeholder text nested inside other unmatched matches, or
cascade through substituted values.) -/
theorem c6_amended (env : List (List Char × List Char)) (s : List Char)
    (hv : ∀ p ∈ env, ∀ ch ∈ p.2, ch ≠ '{')
    (hs : ∀ j, Seg.ph j ∈ segs s → ∀ ch ∈ j, ch ≠ '{') :
    (env_subst env s).1 = env_subst_spec env s
    ∧ (env_subst env s).2 =
        (findall s).filter (fun m => (lookupL env (phName m)).isNone) := by
  have hms : ∀ m ∈ findall s, ∃ j, Seg.ph j ∈ segs s ∧ m = mkPh j := by
    intro m hm
    rw [findall] at hm
    rcases List.mem_filterMap.mp hm with ⟨sg, hsg, hf⟩
    cases sg with
    | lit c => cases hf
    | ph j =>
      refine ⟨j, hsg, ?_⟩
      cases hf
      rfl
  have h0 : renderPartial env [] (segs s) = s :=
    renderPartial_orig env s.length s (le_refl _)
  have hfold := env_subst_fold env hv s hs (findall s) hms [] []
  rw [h0] at hfold
  have he : env_subst env s =
      (renderPartial env (((findall s).map phName).reverse ++ []) (segs s),
       [] ++ (findall s).filter (fun m => (lookupL env (phName m)).isNone)) := by
    rw [env_subst]
    exact hfold
  have hall : ∀ i, Seg.ph i ∈ segs s →
      i ∈ ((findall s).map phName).reverse ++ [] := by
    intro i hi
    rw [List.append_nil, List.mem_reverse]
    exact List.mem_map.mpr
      ⟨mkPh i, List.mem_filterMap.mpr ⟨Seg.ph i, hi, rfl⟩, phName_mkPh i⟩
  constructor
  · rw [he]
    exact renderPartial_full env _ (segs s) hall
  · rw [he]
    simp

/-- The environment and manifest string of the C6 counterexample:
`env = {"a": "v"}` and the string `{{a}{a}`. -/
def envC6 : List (List Char × List Char) := [(['a'], ['v'])]

def sC6 : List Char := ['{', '{', 'a', '}', '{', 'a', '}']

theorem segs_sC6 : segs sC6 = [Seg.ph ['{', 'a'], Seg.ph ['a']] := by
  rw [show sC6 = '{' :: ['{', 'a', '}', '{', 'a', '}'] from rfl]
  rw [segs_open_ph ['{', 'a', '}', '{', 'a', '}'] '}' ['{', 'a', '}']
    (by decide) (by decide)]
  rw [show List.takeWhile notRB ['{', 'a', '}', '{', 'a', '}'] = ['{', 'a'] from by decide]
  rw [show segs ['{', 'a', '}'] = segs ('{' :: ['a', '}']) from rfl]
  rw [segs_open_ph ['a', '}'] '}' [] (by decide) (by decide)]
  rw [show List.takeWhile notRB ['a', '}'] = ['a'] from by decide]
  rw [segs_nil]

theorem replaceAll_exact (p : Char) (ps rep : List Char) :
    replaceAll (p :: ps) rep (p :: ps) = rep := by
  have h := replaceAll_hit p ps rep []
  rw [List.append_nil] at h
  rw [h, replaceAll_nil, List.append_nil]

theorem replaceAll_sC6 : replaceAll ['{', 'a', '}'] ['v'] sC6 = ['{', 'v', 'v'] := by
  rw [show sC6 = '{' :: ['{', 'a', '}', '{', 'a', '}'] from rfl]
  rw [replaceAll_cons_neg _ _ _ _ _ (by decide)]
  rw [show (['{', 'a', '}', '{', 'a', '}'] : List Char) =
    ['{', 'a', '}'] ++ ['{', 'a', '}'] from rfl]
  rw [replaceAll_hit, replaceAll_exact]
  rfl

/-- Claim C6 as stated is false: on `{{a}{a}` with `env = {"a": "v"}` the
scanner finds the matches `{{a}` (unknown name `{a`) and `{a}` (known);
the claim requires the unknown match to stay literally unchanged, giving
`{{a}v`, but `str.replace` also rewrites the `{a}` nested inside it,
producing `{vv`. -/
theorem c6_counterexample :
    (env_subst envC6 sC6).1 = ['{', 'v', 'v']
    ∧ env_subst_spec envC6 sC6 = ['{', '{', 'a', '}', 'v']
    ∧ (env_subst envC6 sC6).1 ≠ env_subst_spec envC6 sC6 := by
  have hfa : findall sC6 = [mkPh ['{', 'a'], mkPh ['a']] := by
    rw [findall, segs_sC6]
    rfl
  have h1 : (env_subst envC6 sC6).1 = ['{', 'v', 'v'] := by
    rw [env_subst, hfa, List.foldl_cons, List.foldl_cons, List.foldl_nil]
    rw [show lookupL envC6 (phName (mkPh ['{', 'a'])) = none from by decide]
    dsimp only
    rw [show lookupL envC6 (phName (mkPh ['a'])) = some ['v'] from by decide]
    dsimp only
    rw [show mkPh ['a'] = ['{', 'a', '}'] from rfl]
    rw [replaceAll_sC6]
  have h2 : env_subst_spec envC6 sC6 = ['{', '{', 'a', '}', 'v'] := by
    rw [env_subst_spec, segs_sC6]
    simp only [List.map_cons, List.map_nil]
    rw [show lookupL envC6 ['{', 'a'] = none from by decide]
    rw [show lookupL envC6 ['a'] = some ['v'] from by decide]
    rfl
  refine ⟨h1, h2, ?_⟩
  rw [h1, h2]
  decide

def envC6w : List (List Char × List Char) := [(['p', 'o', 'r', 't'], ['8', '0', '8', '0'])]

def sC6w : List Char :=
  ['-', '-', 'l', 'i', 's', 't', 'e', 'n', '=', '{', 'p', 'o', 'r', 't', '}']

theorem c6_witness :
    (env_subst envC6w sC6w).1 = env_subst_spec envC6w sC6w
    ∧ (env_subst envC6w sC6w).2 =
        (findall sC6w).filter (fun m => (lookupL envC6w (phName m)).isNone) := by
  have hseg : segs sC6w =
      [Seg.lit '-', Seg.lit '-', Seg.lit 'l', Seg.lit 'i', Seg.lit 's', Seg.lit 't',
       Seg.lit 'e', Seg.lit 'n', Seg.lit '=', Seg.ph ['p', 'o', 'r', 't']] := by
    rw [show sC6w = '-' ::
      ['-', 'l', 'i', 's', 't', 'e', 'n', '=', '{', 'p', 'o', 'r', 't', '}'] from rfl]
    repeat rw [segs_lit _ _ (by decide)]
    rw [segs_open_ph ['p', 'o', 'r', 't', '}'] '}' [] (by decide) (by decide)]
    rw [show List.takeWhile notRB ['p', 'o', 'r', 't', '}'] = ['p', 'o', 'r', 't'] from
      by decide]
    rw [segs_nil]
  refine c6_amended envC6w sC6w (by decide) ?_
  intro j hj
  rw [hseg] at hj
  simp only [List.mem_cons, List.not_mem_nil, or_false] at hj
  rcases hj with h | h | h | h | h | h | h | h | h | h <;> (cases h <;> decide)
